import Mathlib

/-!
Verification of the EventCA event-study pipeline: event-window construction
over an ordered return series and component decomposition of the resulting
event-by-offset matrix. The repository ships the pipeline behind the
functions `construct_event_windows`, `add_pcs` and `add_ics`; the analysis
module itself is not part of the checked sources, so the definitions below
are modelled from the specification of those functions (calendar/offset
resolver, event window builder, component fitter wrapper, result attacher)
and the theorems settle the specification claims against this model.

Dates are natural numbers (their ordering is the trading calendar order);
return values are rationals. A return value may itself be missing (for
example the first cell produced by first-differencing log prices), so a
series entry carries `Option ℚ`, with `none` as the missing sentinel.
-/

namespace EventCA

/-- Modelled from the spec: the Return Series is an ordered sequence of
(date, return) pairs; a value of `none` is the missing sentinel (such as the
NaN produced in the first position by differencing log prices). -/
abbrev ReturnSeries : Type := List (ℕ × Option ℚ)

/-- Modelled from the spec: one row of the Event Table — an event date plus
arbitrary caller-supplied characteristic fields, kept untouched. -/
structure EventRow where
  date : ℕ
  characteristics : List (String × ℚ)
deriving DecidableEq

/-- Modelled from the spec: a row of the augmented Event Table after window
construction — the original fields plus one cell per offset, `none` marking
an unresolvable (or missing-valued) cell. -/
structure WindowedRow where
  date : ℕ
  characteristics : List (String × ℚ)
  cells : List (Option ℚ)
deriving DecidableEq

/-- Column count of an Event Table row: the date column plus one column per
characteristic field. -/
def EventRow.ncols (e : EventRow) : ℕ := 1 + e.characteristics.length

/-- Column count of an augmented row: date, characteristics, and one column
per window offset. -/
def WindowedRow.ncols (w : WindowedRow) : ℕ := 1 + w.characteristics.length + w.cells.length

/-- Position of the anchor date inside the series, in the series' own
ordering; equals `rs.length` when the date is absent. -/
def anchorIdx (rs : ReturnSeries) (anchor : ℕ) : ℕ :=
  List.findIdx (fun p => p.1 == anchor) rs

/-- Modelled from the spec: the Calendar/Offset Resolver. Given the Return
Series and an anchor date, resolve the series entry `k` positions away in
the series' own ordering (not calendar-day arithmetic). Fails (`none`) when
the anchor date is absent from the series — no nearest-date fallback — and
fails independently per offset when `k` steps from the anchor falls outside
the series bounds. -/
def resolveOffset (rs : ReturnSeries) (anchor : ℕ) (k : ℤ) : Option (ℕ × Option ℚ) :=
  let i := anchorIdx rs anchor
  if i < rs.length then
    if 0 ≤ (i : ℤ) + k then rs[((i : ℤ) + k).toNat]? else none
  else none

/-- Value written into the window cell for offset `k`: the resolved entry's
stored return value, taken as-is; `none` when the offset is unresolvable or
when the stored value is itself the missing sentinel. -/
def windowCell (rs : ReturnSeries) (anchor : ℕ) (k : ℤ) : Option ℚ :=
  (resolveOffset rs anchor k).bind (fun p => p.2)

/-- The inclusive offset range [start_window, return_window], in order. -/
def offsets (start_window return_window : ℤ) : List ℤ :=
  (List.range (return_window - start_window + 1).toNat).map
    (fun (i : ℕ) => start_window + (i : ℤ))

/-- Deterministic, offset-addressable name of a generated window column. -/
def offsetColName (k : ℤ) : String := toString k

/-- Modelled from the spec: the Event Window Builder `construct_event_windows`.
For every event row and every offset in the inclusive range it invokes the
resolver and writes the value (or missing sentinel) into that offset's cell;
it returns the augmented Event Table (characteristics survive, no row is
dropped) together with the ordered list of generated column names. -/
def construct_event_windows (event_df : List EventRow) (return_df : ReturnSeries)
    (start_window return_window : ℤ) : List WindowedRow × List String :=
  (event_df.map (fun e =>
      { date := e.date
        characteristics := e.characteristics
        cells := (offsets start_window return_window).map
          (fun k => windowCell return_df e.date k) }),
   (offsets start_window return_window).map offsetColName)

/-- Modelled from the spec (README quick-start): first differencing of a
price-derived series, as in `np.log(prices).diff()` — the first output value
is the missing sentinel, every later value is the difference with its
predecessor. -/
def seriesDiff (xs : List ℚ) : List (Option ℚ) :=
  match xs with
  | [] => []
  | _ :: _ => none :: (xs.tail.zip xs).map (fun p => some (p.1 - p.2))

/-- Modelled from the spec: the distinct reportable failure conditions of
the Component Fitter — insufficient dimensionality (carrying the requested
and the available counts), missing data reaching the fit input, and
non-convergence of the iterative independent-source solver. -/
inductive FitError where
  | insufficientDimensionality (requested available : ℕ)
  | missingDataInFitInput
  | nonConvergence
deriving DecidableEq

/-- Modelled from the spec: the Fitter's output — loadings, one per-offset
weight vector per component, and scores, one per-component vector per
event. -/
structure FitResult where
  loadings : List (List ℚ)
  scores : List (List ℚ)
deriving DecidableEq

/-- Number of columns of the fit-input matrix. -/
def ncolsOf (M : List (List (Option ℚ))) : ℕ := (M.headD []).length

/-- Whether any missing sentinel occurs in the columns selected for
fitting. -/
def hasMissing (M : List (List (Option ℚ))) : Bool :=
  M.any (fun row => row.any (fun c => c.isNone))

/-- The numeric matrix handed to the solver capability; the wrapper only
invokes it on sentinel-free input, where `Option.getD` is the identity on
stored values. -/
def stripMatrix (M : List (List (Option ℚ))) : List (List ℚ) :=
  M.map (fun row => row.map (fun c => c.getD 0))

/-- Modelled from the spec: the external decomposition capability, shared by
the orthogonal and the independent variants —
fit(matrix, n_components) with its reportable failure conditions. -/
abbrev Solver : Type := List (List ℚ) → ℕ → Except FitError FitResult

/-- Modelled from the spec: the Component Fitter wrapper. Before invoking
the solver capability it fails loudly on insufficient dimensionality
(reporting the requested and the available counts) and rejects any missing
sentinel in the fit input; it never imputes and never truncates. -/
def fitComponents (solver : Solver) (M : List (List (Option ℚ)))
    (n_components : ℕ) : Except FitError FitResult :=
  if ncolsOf M < n_components then
    .error (.insufficientDimensionality n_components (ncolsOf M))
  else if hasMissing M then
    .error .missingDataInFitInput
  else
    solver (stripMatrix M) n_components

/-- Dot product of two per-offset vectors (the projection primitive). -/
def dot (xs ys : List ℚ) : ℚ := (List.zipWith (fun a b => a * b) xs ys).sum

/-- Squared Euclidean norm of a weight vector. -/
def sumSq (xs : List ℚ) : ℚ := dot xs xs

/-- Modelled from the spec: the numeric contract of the solver capability —
every loading vector has unit (squared) Euclidean norm and every event's
scores are the projections of that event's row onto the loadings. -/
def SolverContract (solver : Solver) : Prop :=
  ∀ X n r, solver X n = Except.ok r →
    (∀ w ∈ r.loadings, sumSq w = 1) ∧
    r.scores = X.map (fun row => r.loadings.map (fun w => dot row w))

/-- Modelled from the spec: a row of the Event Table after score
attachment — the windowed row embedded unchanged plus one score per fitted
component. -/
structure ScoredRow where
  row : WindowedRow
  scores : List ℚ
deriving DecidableEq

/-- Modelled from the spec: the Result Attacher — append each event's score
vector to its row; every input row is kept, in order. -/
def attachScores : List WindowedRow → List (List ℚ) → List ScoredRow
  | [], _ => []
  | w :: ws, [] => ⟨w, []⟩ :: attachScores ws []
  | w :: ws, s :: ss => ⟨w, s⟩ :: attachScores ws ss

/-- Modelled from the spec: `add_pcs` — fit the orthogonal decomposition on
the offset-column submatrix of the windowed table and return a new table
with one score column per component appended, together with the loadings
structure; the caller's table is embedded unchanged, never mutated. -/
def add_pcs (solver : Solver) (rows : List WindowedRow) (n_pcs : ℕ) :
    Except FitError (List ScoredRow × FitResult) :=
  (fitComponents solver (rows.map (fun w => w.cells)) n_pcs).map
    (fun r => (attachScores rows r.scores, r))

/-- Modelled from the spec: `add_ics` — the identical wrapper around the
independent-source variant's solver capability. -/
def add_ics (solver : Solver) (rows : List WindowedRow) (n_ics : ℕ) :
    Except FitError (List ScoredRow × FitResult) :=
  (fitComponents solver (rows.map (fun w => w.cells)) n_ics).map
    (fun r => (attachScores rows r.scores, r))

/-- Apply a function to the n-th element of a list, if present. -/
def mapNth {α : Type} (f : α → α) : ℕ → List α → List α
  | _, [] => []
  | 0, a :: l => f a :: l
  | n + 1, a :: l => a :: mapNth f n l

/-- Score of event `e` on component `i` (0 outside the stored shape). -/
def scoreAt (r : FitResult) (e i : ℕ) : ℚ := (r.scores.getD e []).getD i 0

/-- Loading of component `i` at offset position `j` (0 outside the stored
shape). -/
def loadingAt (r : FitResult) (i j : ℕ) : ℚ := (r.loadings.getD i []).getD j 0

/-- Downstream reconstruction at event `e` and offset position `j`: the sum
over components of score times loading. -/
def reconstruct (r : FitResult) (e j : ℕ) : ℚ :=
  ∑ i ∈ Finset.range r.loadings.length, scoreAt r e i * loadingAt r i j

/-- Simultaneously negate component `i`'s loading vector and its matching
score column. -/
def negateComponent (r : FitResult) (i : ℕ) : FitResult :=
  { loadings := mapNth (List.map (fun x => -x)) i r.loadings
    scores := r.scores.map (mapNth (fun x => -x) i) }

/-- First standard basis vector of the given length. -/
def oneHot : ℕ → List ℚ
  | 0 => []
  | n + 1 => 1 :: List.replicate n 0

/-- Concrete instance of the solver capability (used to exercise the
wrapper): one component projecting onto the first column. -/
def oneHotSolver : Solver := fun X _ =>
  match (X.headD []).length with
  | 0 => Except.ok { loadings := [], scores := X.map (fun _ => []) }
  | m + 1 => Except.ok
      { loadings := [oneHot (m + 1)]
        scores := X.map (fun row => [dot row (oneHot (m + 1))]) }

/-! ### Basic lemmas about the offset range and the resolver -/

lemma length_offsets (sw rw : ℤ) : (offsets sw rw).length = (rw - sw + 1).toNat := by
  simp [offsets]

lemma mem_offsets {sw rw k : ℤ} : k ∈ offsets sw rw ↔ sw ≤ k ∧ k ≤ rw := by
  simp only [offsets, List.mem_map, List.mem_range]
  constructor
  · rintro ⟨i, hi, rfl⟩
    omega
  · intro h
    exact ⟨(k - sw).toNat, by omega, by omega⟩

lemma offsets_getElem {sw rw k : ℤ} (h1 : sw ≤ k) (h2 : k ≤ rw) :
    (offsets sw rw)[(k - sw).toNat]? = some k := by
  have hlt : (k - sw).toNat < (rw - sw + 1).toNat := by omega
  simp only [offsets, List.getElem?_map, List.getElem?_range hlt, Option.map_some']
  congr 1
  omega

lemma resolveOffset_of_present {rs : ReturnSeries} {anchor : ℕ} {k : ℤ}
    (h : anchorIdx rs anchor < rs.length)
    (hk : 0 ≤ (anchorIdx rs anchor : ℤ) + k) :
    resolveOffset rs anchor k = rs[((anchorIdx rs anchor : ℤ) + k).toNat]? := by
  simp [resolveOffset, h, hk]

lemma resolveOffset_of_neg {rs : ReturnSeries} {anchor : ℕ} {k : ℤ}
    (h : anchorIdx rs anchor < rs.length)
    (hk : (anchorIdx rs anchor : ℤ) + k < 0) :
    resolveOffset rs anchor k = none := by
  simp only [resolveOffset, if_pos h]
  rw [if_neg (by omega)]

lemma resolveOffset_of_absent {rs : ReturnSeries} {anchor : ℕ} {k : ℤ}
    (h : ¬ anchorIdx rs anchor < rs.length) :
    resolveOffset rs anchor k = none := by
  simp [resolveOffset, h]

lemma construct_rows_getElem (event_df : List EventRow) (rs : ReturnSeries)
    (sw rw : ℤ) (i : ℕ) :
    ((construct_event_windows event_df rs sw rw).1)[i]? =
      (event_df[i]?).map (fun e =>
        { date := e.date
          characteristics := e.characteristics
          cells := (offsets sw rw).map (fun k => windowCell rs e.date k) : WindowedRow }) := by
  simp [construct_event_windows, List.getElem?_map]

/-! ### Claim C1 -/

/-- C1: for every event whose date exists in the Return Series and whose
full offset range [start_window, return_window] lies within series bounds,
each cell of that event's window row built by `construct_event_windows`
equals the return obtained by stepping `offset` positions from the anchor in
the series' own ordering (ordinal steps over the entries, not calendar-day
arithmetic), for every offset in the inclusive range. -/
theorem construct_event_windows_cells_ordinal
    (event_df : List EventRow) (rs : ReturnSeries) (sw rw : ℤ)
    (i : ℕ) (e : EventRow) (he : event_df[i]? = some e)
    (hpres : anchorIdx rs e.date < rs.length)
    (hlo : 0 ≤ (anchorIdx rs e.date : ℤ) + sw)
    (hhi : (anchorIdx rs e.date : ℤ) + rw < (rs.length : ℤ)) :
    ∀ k ∈ offsets sw rw, ∃ row p,
      ((construct_event_windows event_df rs sw rw).1)[i]? = some row ∧
      rs[((anchorIdx rs e.date : ℤ) + k).toNat]? = some p ∧
      row.cells[(k - sw).toNat]? = some p.2 := by
  intro k hk
  obtain ⟨hk1, hk2⟩ := mem_offsets.mp hk
  have hidx : ((anchorIdx rs e.date : ℤ) + k).toNat < rs.length := by omega
  refine ⟨{ date := e.date
            characteristics := e.characteristics
            cells := (offsets sw rw).map (fun k => windowCell rs e.date k) },
    rs.get ⟨((anchorIdx rs e.date : ℤ) + k).toNat, hidx⟩, ?_, ?_, ?_⟩
  · rw [construct_rows_getElem, he]
    rfl
  · exact List.getElem?_eq_getElem hidx
  · show (((offsets sw rw).map (fun k => windowCell rs e.date k))[(k - sw).toNat]? = _)
    rw [List.getElem?_map, offsets_getElem hk1 hk2, Option.map_some']
    have hcell : windowCell rs e.date k =
        (rs.get ⟨((anchorIdx rs e.date : ℤ) + k).toNat, hidx⟩).2 := by
      rw [windowCell, resolveOffset_of_present hpres (by omega),
        List.getElem?_eq_getElem hidx]
      rfl
    rw [hcell]

/-- Concrete series with a calendar gap (dates 0, 1, 2, 5, 6 — the
non-trading days 3 and 4 are skipped). -/
def rsEx : ReturnSeries :=
  [(0, some 1), (1, some 2), (2, some 3), (5, some 4), (6, some 5)]

/-- Concrete event table anchored at date 2 of `rsEx`. -/
def evEx : List EventRow := [{ date := 2, characteristics := [("strength", 1)] }]

/-- Witness for C1 at a concrete input: the event at date 2, offset +1 —
one ordinal step from the anchor lands on the entry (5, 4), skipping the
non-trading calendar days 3 and 4. -/
theorem construct_event_windows_cells_ordinal_witness :
    evEx[0]? = some { date := 2, characteristics := [("strength", 1)] } ∧
    anchorIdx rsEx 2 < rsEx.length ∧
    (∃ row p,
      ((construct_event_windows evEx rsEx (-1) 1).1)[0]? = some row ∧
      rsEx[((anchorIdx rsEx 2 : ℤ) + 1).toNat]? = some p ∧
      row.cells[((1 : ℤ) - (-1)).toNat]? = some p.2) := by
  refine ⟨rfl, by decide, ?_⟩
  exact construct_event_windows_cells_ordinal evEx rsEx (-1) 1 0
    { date := 2, characteristics := [("strength", 1)] } rfl (by decide) (by decide)
    (by decide) 1 (by decide)

/-! ### Claim C2 -/

/-- C2: for every Event Table and every window configuration with
start_window ≤ return_window, the table returned by
`construct_event_windows` has the same number of rows as the input, the
generated column list has one name per offset in the inclusive range, and
each row keeps its characteristic columns while its column count grows by
exactly return_window − start_window + 1. -/
theorem construct_event_windows_shape
    (event_df : List EventRow) (rs : ReturnSeries) (sw rw : ℤ) (hsw : sw ≤ rw) :
    ((construct_event_windows event_df rs sw rw).1).length = event_df.length ∧
    (((construct_event_windows event_df rs sw rw).2).length : ℤ) = rw - sw + 1 ∧
    (∀ (i : ℕ) (e : EventRow), event_df[i]? = some e → ∃ row,
      ((construct_event_windows event_df rs sw rw).1)[i]? = some row ∧
      row.date = e.date ∧
      row.characteristics = e.characteristics ∧
      (row.cells.length : ℤ) = rw - sw + 1 ∧
      (row.ncols : ℤ) = (e.ncols : ℤ) + (rw - sw + 1)) := by
  have hlen : ((offsets sw rw).length : ℤ) = rw - sw + 1 := by
    rw [length_offsets]
    omega
  refine ⟨by simp [construct_event_windows], ?_, ?_⟩
  · simpa [construct_event_windows] using hlen
  · intro i e he
    refine ⟨{ date := e.date
              characteristics := e.characteristics
              cells := (offsets sw rw).map (fun k => windowCell rs e.date k) },
      ?_, rfl, rfl, ?_, ?_⟩
    · rw [construct_rows_getElem, he]
      rfl
    · simpa using hlen
    · simp only [WindowedRow.ncols, EventRow.ncols, List.length_map]
      push_cast
      omega

/-- Witness for C2 at a concrete input: one event, window [-1, 1]. -/
theorem construct_event_windows_shape_witness :
    (-1 : ℤ) ≤ 1 ∧
    (((construct_event_windows evEx rsEx (-1) 1).1).length = evEx.length ∧
    (((construct_event_windows evEx rsEx (-1) 1).2).length : ℤ) = 1 - (-1) + 1 ∧
    (∀ (i : ℕ) (e : EventRow), evEx[i]? = some e → ∃ row,
      ((construct_event_windows evEx rsEx (-1) 1).1)[i]? = some row ∧
      row.date = e.date ∧
      row.characteristics = e.characteristics ∧
      (row.cells.length : ℤ) = 1 - (-1) + 1 ∧
      (row.ncols : ℤ) = (e.ncols : ℤ) + (1 - (-1) + 1))) :=
  ⟨by decide, construct_event_windows_shape evEx rsEx (-1) 1 (by decide)⟩

/-! ### Claim C3 -/

/-- C3: an event whose date is absent from the Return Series yields a window
row whose offset cells are all the missing sentinel — no nearest-date
substitution — and the event's row is still present in the output table,
whose row count is unchanged. -/
theorem construct_event_windows_absent_anchor
    (event_df : List EventRow) (rs : ReturnSeries) (sw rw : ℤ)
    (i : ℕ) (e : EventRow) (he : event_df[i]? = some e)
    (habs : ∀ p ∈ rs, p.1 ≠ e.date) :
    ((construct_event_windows event_df rs sw rw).1).length = event_df.length ∧
    ∃ row, ((construct_event_windows event_df rs sw rw).1)[i]? = some row ∧
      row.date = e.date ∧
      row.characteristics = e.characteristics ∧
      ∀ c ∈ row.cells, c = none := by
  have hidx : anchorIdx rs e.date = rs.length := by
    refine List.findIdx_eq_length.mpr (fun x hx => ?_)
    simpa using habs x hx
  refine ⟨by simp [construct_event_windows],
    { date := e.date
      characteristics := e.characteristics
      cells := (offsets sw rw).map (fun k => windowCell rs e.date k) },
    ?_, rfl, rfl, ?_⟩
  · rw [construct_rows_getElem, he]
    rfl
  · intro c hc
    obtain ⟨k, _, rfl⟩ := List.mem_map.mp hc
    rw [windowCell, resolveOffset_of_absent (by omega)]
    rfl

/-- Concrete event table whose single event date 9 is absent from `rsEx`. -/
def evAbsent : List EventRow := [{ date := 9, characteristics := [("surprise", 0)] }]

/-- Witness for C3 at a concrete input: date 9 is not a trading date of
`rsEx`, and the produced row is present with every cell missing. -/
theorem construct_event_windows_absent_anchor_witness :
    (∀ p ∈ rsEx, p.1 ≠ 9) ∧
    (((construct_event_windows evAbsent rsEx (-2) 2).1).length = evAbsent.length ∧
    ∃ row, ((construct_event_windows evAbsent rsEx (-2) 2).1)[0]? = some row ∧
      row.date = 9 ∧
      row.characteristics = [("surprise", 0)] ∧
      ∀ c ∈ row.cells, c = none) :=
  ⟨by decide, construct_event_windows_absent_anchor evAbsent rsEx (-2) 2 0
    { date := 9, characteristics := [("surprise", 0)] } rfl (by decide)⟩

/-! ### Claim C4 -/

/-- C4: for an event with a resolvable anchor, an offset whose target falls
outside the series bounds yields the missing sentinel in that one cell only:
every in-bounds offset of the same event still resolves to its stored
return, and every other event's row is exactly what a run on that event
alone would produce. -/
theorem construct_event_windows_offset_independence
    (event_df : List EventRow) (rs : ReturnSeries) (sw rw : ℤ)
    (i : ℕ) (e : EventRow) (he : event_df[i]? = some e)
    (hpres : anchorIdx rs e.date < rs.length)
    (k : ℤ) (hk : k ∈ offsets sw rw)
    (hout : (anchorIdx rs e.date : ℤ) + k < 0 ∨
      (rs.length : ℤ) ≤ (anchorIdx rs e.date : ℤ) + k) :
    ∃ row,
      ((construct_event_windows event_df rs sw rw).1)[i]? = some row ∧
      row.cells[(k - sw).toNat]? = some none ∧
      (∀ k' ∈ offsets sw rw, 0 ≤ (anchorIdx rs e.date : ℤ) + k' →
        (anchorIdx rs e.date : ℤ) + k' < (rs.length : ℤ) →
        ∃ p, rs[((anchorIdx rs e.date : ℤ) + k').toNat]? = some p ∧
          row.cells[(k' - sw).toNat]? = some p.2) ∧
      (∀ (i' : ℕ) (e' : EventRow), event_df[i']? = some e' →
        ((construct_event_windows event_df rs sw rw).1)[i']? =
          ((construct_event_windows [e'] rs sw rw).1)[0]?) := by
  obtain ⟨hk1, hk2⟩ := mem_offsets.mp hk
  refine ⟨{ date := e.date
            characteristics := e.characteristics
            cells := (offsets sw rw).map (fun k => windowCell rs e.date k) },
    ?_, ?_, ?_, ?_⟩
  · rw [construct_rows_getElem, he]
    rfl
  · show (((offsets sw rw).map (fun k => windowCell rs e.date k))[(k - sw).toNat]? = _)
    rw [List.getElem?_map, offsets_getElem hk1 hk2, Option.map_some']
    have hcell : windowCell rs e.date k = none := by
      rcases hout with hneg | hhigh
      · rw [windowCell, resolveOffset_of_neg hpres hneg]
        rfl
      · rw [windowCell, resolveOffset_of_present hpres (by omega),
          List.getElem?_eq_none (by omega)]
        rfl
    rw [hcell]
  · intro k' hk' hlo' hhi'
    obtain ⟨hk'1, hk'2⟩ := mem_offsets.mp hk'
    have hidx : ((anchorIdx rs e.date : ℤ) + k').toNat < rs.length := by omega
    refine ⟨rs.get ⟨((anchorIdx rs e.date : ℤ) + k').toNat, hidx⟩,
      List.getElem?_eq_getElem hidx, ?_⟩
    show (((offsets sw rw).map (fun k => windowCell rs e.date k))[(k' - sw).toNat]? = _)
    rw [List.getElem?_map, offsets_getElem hk'1 hk'2, Option.map_some']
    have hcell : windowCell rs e.date k' =
        (rs.get ⟨((anchorIdx rs e.date : ℤ) + k').toNat, hidx⟩).2 := by
      rw [windowCell, resolveOffset_of_present hpres (by omega),
        List.getElem?_eq_getElem hidx]
      rfl
    rw [hcell]
  · intro i' e' he'
    rw [construct_rows_getElem, he', construct_rows_getElem]
    rfl

/-- Concrete event table anchored at the last trading date of `rsEx`. -/
def evLast : List EventRow := [{ date := 6, characteristics := [] }]

/-- Witness for C4 at a concrete input: anchor at date 6 (last series
position), offset +1 falls past the series end while offset −1 still
resolves to the entry (5, 4). -/
theorem construct_event_windows_offset_independence_witness :
    evLast[0]? = some { date := 6, characteristics := [] } ∧
    anchorIdx rsEx 6 < rsEx.length ∧
    (1 : ℤ) ∈ offsets (-1) 1 ∧
    ((rsEx.length : ℤ) ≤ (anchorIdx rsEx 6 : ℤ) + 1) ∧
    (∃ row,
      ((construct_event_windows evLast rsEx (-1) 1).1)[0]? = some row ∧
      row.cells[((1 : ℤ) - (-1)).toNat]? = some none ∧
      (∀ k' ∈ offsets (-1) 1, 0 ≤ (anchorIdx rsEx 6 : ℤ) + k' →
        (anchorIdx rsEx 6 : ℤ) + k' < (rsEx.length : ℤ) →
        ∃ p, rsEx[((anchorIdx rsEx 6 : ℤ) + k').toNat]? = some p ∧
          row.cells[(k' - (-1)).toNat]? = some p.2) ∧
      (∀ (i' : ℕ) (e' : EventRow), evLast[i']? = some e' →
        ((construct_event_windows evLast rsEx (-1) 1).1)[i']? =
          ((construct_event_windows [e'] rsEx (-1) 1).1)[0]?)) := by
  refine ⟨rfl, by decide, by decide, by decide, ?_⟩
  exact construct_event_windows_offset_independence evLast rsEx (-1) 1 0
    { date := 6, characteristics := [] } rfl (by decide) 1 (by decide)
    (Or.inr (by decide))

/-! ### Claim C5 -/

/-- C5: requesting more components than there are offset columns makes the
Fitter fail with the insufficient-dimensionality condition, reporting both
the requested and the available counts; the result does not depend on the
solver capability at all (the solver is never invoked) and is never a
truncated or padded success, for the orthogonal and the independent variant
alike. -/
theorem fitComponents_insufficient_dimensionality
    (solver : Solver) (M : List (List (Option ℚ))) (n : ℕ)
    (h : ncolsOf M < n) :
    fitComponents solver M n =
      Except.error (FitError.insufficientDimensionality n (ncolsOf M)) ∧
    (∀ solver' : Solver, fitComponents solver' M n = fitComponents solver M n) ∧
    (∀ r : FitResult, fitComponents solver M n ≠ Except.ok r) ∧
    (∀ rows : List WindowedRow, rows.map (fun w => w.cells) = M →
      add_pcs solver rows n =
        Except.error (FitError.insufficientDimensionality n (ncolsOf M)) ∧
      add_ics solver rows n =
        Except.error (FitError.insufficientDimensionality n (ncolsOf M))) := by
  have hfit : fitComponents solver M n =
      Except.error (FitError.insufficientDimensionality n (ncolsOf M)) := by
    simp [fitComponents, h]
  refine ⟨hfit, fun solver' => by simp [fitComponents, h],
    fun r hr => by simp [hfit] at hr, ?_⟩
  intro rows hrows
  constructor
  · rw [add_pcs, hrows, hfit]
    rfl
  · rw [add_ics, hrows, hfit]
    rfl

/-- Concrete sentinel-free two-column fit input. -/
def mEx : List (List (Option ℚ)) := [[some 1, some 0]]

/-- Witness for C5 at a concrete input: two offset columns, three requested
components. -/
theorem fitComponents_insufficient_dimensionality_witness :
    ncolsOf mEx < 3 ∧
    (fitComponents oneHotSolver mEx 3 =
      Except.error (FitError.insufficientDimensionality 3 (ncolsOf mEx)) ∧
    (∀ solver' : Solver, fitComponents solver' mEx 3 = fitComponents oneHotSolver mEx 3) ∧
    (∀ r : FitResult, fitComponents oneHotSolver mEx 3 ≠ Except.ok r) ∧
    (∀ rows : List WindowedRow, rows.map (fun w => w.cells) = mEx →
      add_pcs oneHotSolver rows 3 =
        Except.error (FitError.insufficientDimensionality 3 (ncolsOf mEx)) ∧
      add_ics oneHotSolver rows 3 =
        Except.error (FitError.insufficientDimensionality 3 (ncolsOf mEx)))) :=
  ⟨by decide, fitComponents_insufficient_dimensionality oneHotSolver mEx 3 (by decide)⟩

/-! ### Claim C6 -/

/-- C6: a missing sentinel anywhere in the fit input makes the Fitter reject
the call: it never succeeds, the solver capability is never consulted (the
result is solver-independent, so nothing is imputed or passed on as NaN),
and whenever the call is otherwise well-dimensioned the reported condition
is missing-data-in-fit-input. -/
theorem fitComponents_rejects_missing_input
    (solver : Solver) (M : List (List (Option ℚ))) (n : ℕ)
    (h : hasMissing M = true) :
    (∀ r : FitResult, fitComponents solver M n ≠ Except.ok r) ∧
    (∀ solver' : Solver, fitComponents solver' M n = fitComponents solver M n) ∧
    (n ≤ ncolsOf M → fitComponents solver M n = Except.error FitError.missingDataInFitInput) := by
  by_cases hd : ncolsOf M < n
  · exact ⟨fun r hr => by simp [fitComponents, hd] at hr,
      fun solver' => by simp [fitComponents, hd],
      fun hn => absurd hd (by omega)⟩
  · have hfit : fitComponents solver M n = Except.error FitError.missingDataInFitInput := by
      simp [fitComponents, hd, h]
    exact ⟨fun r hr => by simp [hfit] at hr,
      fun solver' => by simp [fitComponents, hd, h],
      fun _ => hfit⟩

/-- Concrete fit input carrying a missing sentinel. -/
def mMissEx : List (List (Option ℚ)) := [[some 1, none]]

/-- Witness for C6 at a concrete input: a 1×2 matrix whose second cell is
the missing sentinel, with one requested component. -/
theorem fitComponents_rejects_missing_input_witness :
    hasMissing mMissEx = true ∧
    ((∀ r : FitResult, fitComponents oneHotSolver mMissEx 1 ≠ Except.ok r) ∧
    (∀ solver' : Solver, fitComponents solver' mMissEx 1 = fitComponents oneHotSolver mMissEx 1) ∧
    (1 ≤ ncolsOf mMissEx →
      fitComponents oneHotSolver mMissEx 1 = Except.error FitError.missingDataInFitInput)) :=
  ⟨by decide, fitComponents_rejects_missing_input oneHotSolver mMissEx 1 (by decide)⟩

/-! ### Claim C7 -/

lemma mapNth_nil {α : Type} (f : α → α) (n : ℕ) : mapNth f n [] = [] := by
  cases n <;> rfl

lemma length_mapNth {α : Type} (f : α → α) (n : ℕ) (l : List α) :
    (mapNth f n l).length = l.length := by
  induction l generalizing n with
  | nil => rw [mapNth_nil]
  | cons a l ih =>
    cases n with
    | zero => rfl
    | succ n => simp [mapNth, ih]

lemma getD_mapNth {α : Type} (f : α → α) (d : α) (hd : f d = d) (n m : ℕ) (l : List α) :
    (mapNth f n l).getD m d = if m = n then f (l.getD m d) else l.getD m d := by
  induction l generalizing n m with
  | nil => simp [mapNth_nil, hd]
  | cons a l ih =>
    cases n with
    | zero =>
      cases m with
      | zero => simp [mapNth]
      | succ m => simp [mapNth]
    | succ n =>
      cases m with
      | zero => simp [mapNth]
      | succ m => simpa [mapNth] using ih n m

lemma getD_map_neg (l : List ℚ) (m : ℕ) :
    (l.map (fun x => -x)).getD m 0 = -(l.getD m 0) := by
  induction l generalizing m with
  | nil => simp
  | cons a l ih =>
    cases m with
    | zero => simp
    | succ m => simpa using ih m

lemma getD_map_nil_fix (g : List ℚ → List ℚ) (hg : g [] = []) (L : List (List ℚ)) (e : ℕ) :
    (L.map g).getD e [] = g (L.getD e []) := by
  induction L generalizing e with
  | nil => simp [hg]
  | cons a L ih =>
    cases e with
    | zero => simp
    | succ e => simpa using ih e

lemma scoreAt_negateComponent (r : FitResult) (i e i' : ℕ) :
    scoreAt (negateComponent r i) e i' =
      if i' = i then -(scoreAt r e i') else scoreAt r e i' := by
  show ((r.scores.map (mapNth (fun x => -x) i)).getD e []).getD i' 0 = _
  rw [getD_map_nil_fix (mapNth (fun x => -x) i) (mapNth_nil _ i),
    getD_mapNth (fun x => -x) 0 neg_zero]
  rfl

lemma loadingAt_negateComponent (r : FitResult) (i i' j : ℕ) :
    loadingAt (negateComponent r i) i' j =
      if i' = i then -(loadingAt r i' j) else loadingAt r i' j := by
  show ((mapNth (List.map (fun x => -x)) i r.loadings).getD i' []).getD j 0 = _
  rw [getD_mapNth (List.map (fun x => -x)) [] rfl]
  by_cases h : i' = i
  · rw [if_pos h, if_pos h]
    exact getD_map_neg _ _
  · rw [if_neg h, if_neg h]
    rfl

/-- C7: simultaneously negating one component's loading vector and its
matching score column leaves every reconstruction — the loading·score
product summed over components, at every event and offset position —
unchanged: component sign carries no meaning. -/
theorem reconstruct_negateComponent (r : FitResult) (i e j : ℕ) :
    reconstruct (negateComponent r i) e j = reconstruct r e j := by
  show (∑ i' ∈ Finset.range (negateComponent r i).loadings.length,
      scoreAt (negateComponent r i) e i' * loadingAt (negateComponent r i) i' j) = _
  rw [show (negateComponent r i).loadings.length = r.loadings.length from
    length_mapNth _ _ _]
  refine Finset.sum_congr rfl (fun i' _ => ?_)
  rw [scoreAt_negateComponent, loadingAt_negateComponent]
  by_cases h : i' = i
  · simp [h]
  · simp [h]

/-! ### Claim C8 -/

lemma sum_zipWith_mul_replicate_zero (m : ℕ) :
    (List.zipWith (fun a b => a * b) (List.replicate m (0 : ℚ)) (List.replicate m 0)).sum = 0 := by
  induction m with
  | zero => rfl
  | succ m ih => simp [List.replicate_succ, ih]

lemma sumSq_oneHot (m : ℕ) (h : m ≠ 0) : sumSq (oneHot m) = 1 := by
  cases m with
  | zero => exact absurd rfl h
  | succ m =>
    simp [sumSq, dot, oneHot, sum_zipWith_mul_replicate_zero m]

lemma oneHotSolver_contract : SolverContract oneHotSolver := by
  intro X n r h
  rw [oneHotSolver] at h
  cases hl : (X.headD []).length with
  | zero =>
    rw [hl] at h
    simp only at h
    obtain rfl : FitResult.mk [] (X.map (fun _ => [])) = r := by
      exact Except.ok.inj h
    refine ⟨by simp, ?_⟩
    simp
  | succ m =>
    rw [hl] at h
    simp only at h
    obtain rfl : FitResult.mk [oneHot (m + 1)]
        (X.map (fun row => [dot row (oneHot (m + 1))])) = r := by
      exact Except.ok.inj h
    refine ⟨?_, by simp⟩
    intro w hw
    rw [List.mem_singleton.mp hw]
    exact sumSq_oneHot (m + 1) (by omega)

/-- C8: for every successful fit through the wrapper, with a solver
capability honouring the spec's numeric contract, every component's loading
vector has unit squared Euclidean norm and each event's score vector is the
projection of that event's window row onto the loadings. -/
theorem fit_scores_are_projections
    (solver : Solver) (hc : SolverContract solver)
    (M : List (List (Option ℚ))) (n : ℕ) (r : FitResult)
    (h : fitComponents solver M n = Except.ok r) :
    (∀ w ∈ r.loadings, sumSq w = 1) ∧
    r.scores = (stripMatrix M).map (fun row => r.loadings.map (fun w => dot row w)) := by
  rw [fitComponents] at h
  by_cases h1 : ncolsOf M < n
  · rw [if_pos h1] at h
    exact absurd h (by simp)
  · rw [if_neg h1] at h
    by_cases h2 : hasMissing M = true
    · rw [if_pos h2] at h
      exact absurd h (by simp)
    · rw [if_neg h2] at h
      exact hc _ _ _ h

/-- Fit result of `oneHotSolver` on the stripped `mEx`. -/
def rEx : FitResult := { loadings := [[1, 0]], scores := [[1]] }

/-- Witness for C8 at a concrete input: `oneHotSolver` satisfies the
contract, fitting `mEx` with one component succeeds with loading [1, 0] of
unit norm and score 1 = the projection of the row [1, 0] onto it. -/
theorem fit_scores_are_projections_witness :
    fitComponents oneHotSolver mEx 1 = Except.ok rEx ∧
    ((∀ w ∈ rEx.loadings, sumSq w = 1) ∧
    rEx.scores = (stripMatrix mEx).map (fun row => rEx.loadings.map (fun w => dot row w))) := by
  have hfit : fitComponents oneHotSolver mEx 1 = Except.ok rEx := by
    rw [fitComponents]
    rw [if_neg (by decide), if_neg (by decide)]
    rw [oneHotSolver]
    simp [stripMatrix, mEx, rEx, oneHot, dot]
  exact ⟨hfit, fit_scores_are_projections oneHotSolver oneHotSolver_contract mEx 1 rEx hfit⟩

/-! ### Claim C9 -/

/-- Erase the generated window cells from an augmented row, recovering the
original Event Table row. -/
def stripWindowed (w : WindowedRow) : EventRow :=
  { date := w.date, characteristics := w.characteristics }

lemma attachScores_map_row (ws : List WindowedRow) (ss : List (List ℚ)) :
    (attachScores ws ss).map (fun s => s.row) = ws := by
  induction ws generalizing ss with
  | nil => rfl
  | cons w ws ih =>
    cases ss with
    | nil => simp [attachScores, ih]
    | cons s ss => simp [attachScores, ih]

lemma attach_of_fit (F : Except FitError FitResult) (rows : List WindowedRow)
    (out : List ScoredRow × FitResult)
    (h : F.map (fun r => (attachScores rows r.scores, r)) = Except.ok out) :
    (out.1).map (fun s => s.row) = rows := by
  cases F with
  | error e => exact absurd h (by simp [Except.map])
  | ok r =>
    obtain rfl : (attachScores rows r.scores, r) = out := Except.ok.inj h
    exact attachScores_map_row rows r.scores

/-- C9: both table-building steps are pure transforms of the caller's
table: window construction embeds every input row unchanged (erasing the
generated cells recovers the input exactly, for any two window
configurations), and score attachment embeds every windowed row unchanged,
so repeated calls with different windows or component counts never
interfere through the input table. -/
theorem pipeline_pure_transform
    (event_df : List EventRow) (rs : ReturnSeries) (sw rw sw' rw' : ℤ)
    (solver : Solver) (rows : List WindowedRow) (n : ℕ) :
    ((construct_event_windows event_df rs sw rw).1).map stripWindowed = event_df ∧
    ((construct_event_windows event_df rs sw' rw').1).map stripWindowed = event_df ∧
    (∀ out, add_pcs solver rows n = Except.ok out →
      (out.1).map (fun s => s.row) = rows) ∧
    (∀ out, add_ics solver rows n = Except.ok out →
      (out.1).map (fun s => s.row) = rows) := by
  have hstrip : ∀ a b : ℤ,
      ((construct_event_windows event_df rs a b).1).map stripWindowed = event_df := by
    intro a b
    show (event_df.map _).map stripWindowed = event_df
    rw [List.map_map]
    exact List.map_id'' (fun e => rfl) event_df
  refine ⟨hstrip sw rw, hstrip sw' rw', fun out hout => ?_, fun out hout => ?_⟩
  · rw [add_pcs] at hout
    exact attach_of_fit _ rows out hout
  · rw [add_ics] at hout
    exact attach_of_fit _ rows out hout

/-- Concrete windowed table with a single sentinel-free one-cell row. -/
def rowsEx : List WindowedRow := [{ date := 0, characteristics := [], cells := [some 1] }]

/-- Output of `add_pcs oneHotSolver rowsEx 1`. -/
def pcsOutEx : List ScoredRow × FitResult :=
  ([{ row := { date := 0, characteristics := [], cells := [some 1] }, scores := [1] }],
   { loadings := [[1]], scores := [[1]] })

/-- Witness for C9 at a concrete input: two window configurations on `evEx`
both strip back to `evEx`, and a successful `add_pcs`/`add_ics` call on
`rowsEx` returns a table whose rows strip back to `rowsEx`. -/
theorem pipeline_pure_transform_witness :
    ((construct_event_windows evEx rsEx (-1) 1).1).map stripWindowed = evEx ∧
    ((construct_event_windows evEx rsEx (-2) 0).1).map stripWindowed = evEx ∧
    add_pcs oneHotSolver rowsEx 1 = Except.ok pcsOutEx ∧
    (pcsOutEx.1).map (fun s => s.row) = rowsEx ∧
    add_ics oneHotSolver rowsEx 1 = Except.ok pcsOutEx := by
  have h := pipeline_pure_transform evEx rsEx (-1) 1 (-2) 0 oneHotSolver rowsEx 1
  have hfit : fitComponents oneHotSolver (rowsEx.map (fun w => w.cells)) 1 =
      Except.ok { loadings := [[1]], scores := [[1]] } := by
    rw [fitComponents]
    rw [if_neg (by decide), if_neg (by decide)]
    rw [oneHotSolver]
    simp [stripMatrix, rowsEx, oneHot, dot]
  have hpcs : add_pcs oneHotSolver rowsEx 1 = Except.ok pcsOutEx := by
    rw [add_pcs, hfit]
    rfl
  have hics : add_ics oneHotSolver rowsEx 1 = Except.ok pcsOutEx := by
    rw [add_ics, hfit]
    rfl
  exact ⟨h.1, h.2.1, hpcs, h.2.2.1 pcsOutEx hpcs, hics⟩

/-! ### Claim C10 -/

/-- Price-like series for the quick-start recipe. -/
def pricesEx : List ℚ := [1, 3, 6]

/-- Return Series built exactly as the quick-start recipe builds it: the
trading dates paired with the first difference of the (log-)price series,
whose first value is the missing sentinel. -/
def rsDiffEx : ReturnSeries := List.zip [0, 1, 2] (seriesDiff pricesEx)

/-- C10: on a valid input whose Return Series was produced by first
differencing — so its first stored value is the missing sentinel —
`construct_event_windows` writes that missing value into a window cell whose
offset resolved successfully inside series bounds: the anchor is present,
the offset −1 resolves (the resolver succeeds), yet the cell holds the
sentinel, so a missing cell does not imply an unresolvable anchor or an
out-of-bounds offset. -/
theorem windowCell_missing_value_not_unresolved :
    anchorIdx rsDiffEx 1 < rsDiffEx.length ∧
    0 ≤ (anchorIdx rsDiffEx 1 : ℤ) + (-1) ∧
    (resolveOffset rsDiffEx 1 (-1)).isSome = true ∧
    windowCell rsDiffEx 1 (-1) = none ∧
    (∃ row,
      ((construct_event_windows [{ date := 1, characteristics := [] }] rsDiffEx (-1) 0).1)[0]?
        = some row ∧
      row.cells[0]? = some none) := by
  refine ⟨by decide, by decide, by decide, by decide, ?_⟩
  refine ⟨{ date := 1
            characteristics := []
            cells := (offsets (-1) 0).map (fun k => windowCell rsDiffEx 1 k) }, rfl, ?_⟩
  decide

end EventCA
